import Mathlib

/-!
Verification development for the x402 peer-to-peer protocol core.

Rust strings are modelled as `List Char` and byte buffers as `List Nat`
(each element a byte value). Fallible Rust functions returning
`Result<T, String>` are modelled as `Except (List Char) T`.
Definitions mirror the source files
`peer/src/torrent/magnet.rs`, `x402-core/src/peer/handshake.rs` and
`x402-core/src/peer/serve.rs`.
-/

/-- Test for an ASCII hexadecimal digit, modelling Rust
`char::is_ascii_hexdigit` (0-9, a-f, A-F). -/
def isAsciiHexDigit (c : Char) : Bool :=
  (48 ≤ c.toNat && c.toNat ≤ 57) ||
  (97 ≤ c.toNat && c.toNat ≤ 102) ||
  (65 ≤ c.toNat && c.toNat ≤ 70)

/-- Numeric value of a hexadecimal digit (0 on non-digits). -/
def hexVal (c : Char) : Nat :=
  if 48 ≤ c.toNat && c.toNat ≤ 57 then c.toNat - 48
  else if 97 ≤ c.toNat && c.toNat ≤ 102 then c.toNat - 87
  else if 65 ≤ c.toNat && c.toNat ≤ 70 then c.toNat - 55
  else 0

/-- Value of a nonempty all-hex digit string in base 16, with the u8
overflow check (values of 256 or more are a `PosOverflow` error, hence
`none`). Helper for `u8_from_str_radix16`. -/
def hexDigitsVal (s : List Char) : Option Nat :=
  if s = [] then none
  else if s.all isAsciiHexDigit then
    let v := s.foldl (fun a c => 16 * a + hexVal c) 0
    if v < 256 then some v else none
  else none

/-- Model of Rust `u8::from_str_radix(s, 16)` as used by the sources:
an optional leading `+` sign is accepted (a leading `-` is an invalid
digit for an unsigned type), followed by one or more hexadecimal
digits, with overflow checking against the u8 range. -/
def u8_from_str_radix16 : List Char → Option Nat
  | [] => none
  | c :: rest =>
    if c = '+' then hexDigitsVal rest
    else if c = '-' then none
    else hexDigitsVal (c :: rest)

/-- Model of Rust `str::parse::<u64>` composed with `.ok()`: an optional
leading `+` sign, one or more ASCII decimal digits, overflow checking
against the u64 range; any failure yields `none`. -/
def parse_u64 : List Char → Option Nat
  | [] => none
  | c :: rest =>
    if c = '-' then none
    else
      let ds := if c = '+' then rest else c :: rest
      if ds ≠ [] && ds.all Char.isDigit then
        let v := ds.foldl (fun a c => 10 * a + (c.toNat - 48)) 0
        if v < 2 ^ 64 then some v else none
      else none

/-- Digit recursion for decimal rendering, driven by a fuel argument
that only needs to exceed the number (the usual structural phrasing of
division-based digit extraction). -/
def natToDecAux : Nat → Nat → List Char
  | 0, _ => []
  | f + 1, n =>
    if n < 10 then [Char.ofNat (48 + n)]
    else natToDecAux f (n / 10) ++ [Char.ofNat (48 + n % 10)]

/-- Decimal digit characters of a natural number, most significant
first, modelling Rust display formatting of an integer. -/
def natToDec (n : Nat) : List Char := natToDecAux (n + 1) n

/-- Uppercase hexadecimal digit character for a value below 16,
as produced by Rust formatting with `:02X`. -/
def hexUpperDigit (n : Nat) : Char :=
  if n < 10 then Char.ofNat (48 + n) else Char.ofNat (55 + n)

/-- Lowercase hexadecimal digit character for a value below 16,
as produced by Rust formatting with `:02x`. -/
def hexLowerDigit (n : Nat) : Char :=
  if n < 10 then Char.ofNat (48 + n) else Char.ofNat (87 + n)

/-- Lowercase hex rendering of a byte list, modelling the Rust pattern
`iter().map(|b| format ":02x" b).collect()` used for log and error
messages (each element is assumed to be a byte value). -/
def bytesToHex (bs : List Nat) : List Char :=
  bs.flatMap fun b => [hexLowerDigit (b / 16 % 16), hexLowerDigit (b % 16)]

/-- Model of Rust `url_decode` from magnet.rs: percent-decoding where a
`%` consumes up to two following characters, decodes them as a hex byte
when possible (that byte reinterpreted as a character) and otherwise
passes `%` and the consumed characters through literally; `+` decodes
to a space; every other character passes through unchanged. -/
def url_decode : List Char → List Char
  | [] => []
  | c :: rest =>
    if c = '%' then
      match rest with
      | [] => ['%']
      | [c1] =>
        match u8_from_str_radix16 [c1] with
        | some b => [Char.ofNat b]
        | none => ['%', c1]
      | c1 :: c2 :: rest2 =>
        match u8_from_str_radix16 [c1, c2] with
        | some b => Char.ofNat b :: url_decode rest2
        | none => '%' :: c1 :: c2 :: url_decode rest2
    else if c = '+' then ' ' :: url_decode rest
    else c :: url_decode rest

/-- Encoding of one character by Rust `url_encode` from magnet.rs:
unreserved characters pass through, a space becomes `+`, and everything
else becomes a percent escape of the character value truncated to a
byte (the Rust cast `c as u8`), in uppercase hex. -/
def url_encode_char (c : Char) : List Char :=
  if ((65 ≤ c.toNat && c.toNat ≤ 90) || (97 ≤ c.toNat && c.toNat ≤ 122) ||
      (48 ≤ c.toNat && c.toNat ≤ 57) ||
      c = '-' || c = '_' || c = '.' || c = '~') then [c]
  else if c = ' ' then ['+']
  else ['%', hexUpperDigit (c.toNat % 256 / 16), hexUpperDigit (c.toNat % 16)]

/-- Model of Rust `url_encode` from magnet.rs. -/
def url_encode (s : List Char) : List Char :=
  s.flatMap url_encode_char

/-- Splitting a character list on a separator character, modelling Rust
`str::split(sep)`: the empty string yields one empty piece, and each
separator occurrence starts a new piece. -/
def splitOnChar (sep : Char) : List Char → List (List Char)
  | [] => [[]]
  | c :: cs =>
    match splitOnChar sep cs with
    | [] => if c = sep then [[], []] else [[c]]
    | h :: t => if c = sep then [] :: h :: t else (c :: h) :: t

/-- Splitting a pair at the first `=` sign, modelling Rust
`str::split_once` with a `=` pattern: `none` when no `=` occurs. -/
def split_once_eq : List Char → Option (List Char × List Char)
  | [] => none
  | c :: cs =>
    if c = '=' then some ([], cs)
    else (split_once_eq cs).map fun p => (c :: p.1, p.2)

/-- Model of Rust `parse_query_params` from magnet.rs. The result keeps
every `key=value` pair in order of appearance (pairs without a `=` are
skipped); this list of pairs represents the `HashMap<String, Vec<String>>`
built with `entry`/`push`, whose per-key vectors hold exactly the values
of that key in order of appearance (recovered below by `getAll`). -/
def parse_query_params (q : List Char) : List (List Char × List Char) :=
  (splitOnChar '&' q).filterMap split_once_eq

/-- Values associated with a key, in order of appearance: this is the
`Vec<String>` that the Rust map lookup `params.get(k)` returns (an
absent key corresponds to the empty list). -/
def getAll (k : List Char) (ps : List (List Char × List Char)) : List (List Char) :=
  ps.filterMap fun p => if p.1 = k then some p.2 else none

/-- Model of `extract_info_hash` from magnet.rs: requires the
`urn:btih:` form, a hash of length 40 (which must be hexadecimal) or of
length 32 (not further validated), and lowercases the result. -/
def extract_info_hash (xt : List Char) : Except (List Char) (List Char) :=
  if ("urn:btih:".toList).isPrefixOf xt then
    let hash := xt.drop 9
    if hash.length ≠ 40 && hash.length ≠ 32 then
      .error ("Invalid info hash length: expected 40 (hex) or 32 (base32), got ".toList
        ++ natToDec hash.length)
    else if hash.length = 40 && !(hash.all isAsciiHexDigit) then
      .error "Invalid info hash: not valid hexadecimal".toList
    else
      .ok (hash.map Char.toLower)
  else
    .error "Invalid xt parameter: must be \x27urn:btih:<hash>\x27".toList

/-- Model of the `MagnetLink` struct from magnet.rs. -/
structure MagnetLink where
  info_hash : List Char
  display_name : Option (List Char)
  trackers : List (List Char)
  exact_length : Option Nat
deriving Repr, DecidableEq

/-- Model of `MagnetLink::parse` from magnet.rs. -/
def MagnetLink.parse (url : List Char) : Except (List Char) MagnetLink :=
  if ("magnet:?".toList).isPrefixOf url then
    let params := parse_query_params (url.drop 8)
    match (getAll "xt".toList params).head? with
    | none => .error "Missing required \x27xt\x27 parameter".toList
    | some xtv =>
      match extract_info_hash xtv with
      | .error e => .error e
      | .ok ih =>
        .ok { info_hash := ih
              display_name := ((getAll "dn".toList params).head?).map url_decode
              trackers := (getAll "tr".toList params).map url_decode
              exact_length := ((getAll "xl".toList params).head?).bind parse_u64 }
  else
    .error "Invalid magnet link: must start with \x27magnet:?\x27".toList

/-- Model of `MagnetLink::to_url` from magnet.rs. -/
def MagnetLink.to_url (m : MagnetLink) : List Char :=
  "magnet:?xt=urn:btih:".toList ++ m.info_hash
  ++ (match m.display_name with
      | some name => "&dn=".toList ++ url_encode name
      | none => [])
  ++ (m.trackers.flatMap fun t => "&tr=".toList ++ url_encode t)
  ++ (match m.exact_length with
      | some l => "&xl=".toList ++ natToDec l
      | none => [])

/-- The fixed protocol-name bytes, the Rust constant `PROTOCOL_STRING`
(the 19 ASCII bytes of the BitTorrent protocol literal). -/
def PROTOCOL_BYTES : List Nat :=
  ("BitTorrent protocol".toList).map Char.toNat

/-- The Rust constant `HANDSHAKE_LENGTH`. -/
def HANDSHAKE_LENGTH : Nat := 68

/-- Model of the `Handshake` struct from handshake.rs. The `peer_id`
field (a `KsuidMs` in Rust, observed only through its 20-byte
`bytes()` view) is modelled directly as its byte list. -/
structure Handshake where
  pstrlen : Nat
  pstr : List Nat
  reserved : List Nat
  info_hash : List Nat
  peer_id : List Nat
deriving Repr, DecidableEq

/-- Model of `Handshake::new` from handshake.rs. -/
def Handshake.new (info_hash peer_id : List Nat) : Handshake :=
  { pstrlen := 19
    pstr := PROTOCOL_BYTES
    reserved := List.replicate 8 0
    info_hash := info_hash
    peer_id := peer_id }

/-- Model of `Handshake::serialize` from handshake.rs: the length
byte, the protocol bytes, the reserved bytes, the info hash and the
peer id, in that order. -/
def Handshake.serialize (h : Handshake) : List Nat :=
  h.pstrlen :: (h.pstr ++ h.reserved ++ h.info_hash ++ h.peer_id)

/-- Model of `Handshake::deserialize` from handshake.rs. Index reads on
the input slice are modelled with `drop`/`take` and `headD`, which
agree with the Rust indexing because the length guard runs first. -/
def Handshake.deserialize (data : List Nat) : Except (List Char) Handshake :=
  if data.length < HANDSHAKE_LENGTH then
    .error ("Handshake too short: expected 68, got ".toList ++ natToDec data.length)
  else
    let pstrlen := data.headD 0
    if pstrlen ≠ 19 then
      .error ("Invalid protocol string length: ".toList ++ natToDec pstrlen)
    else if (data.drop 1).take 19 ≠ PROTOCOL_BYTES then
      .error "Invalid protocol string".toList
    else
      .ok { pstrlen := pstrlen
            pstr := (data.drop 1).take 19
            reserved := (data.drop 20).take 8
            info_hash := (data.drop 28).take 20
            peer_id := (data.drop 48).take 20 }

/-- Display text of the error that Rust `Read::read_exact` produces
when the stream ends before the buffer is filled (an `UnexpectedEof`
error from the standard library). -/
def READ_EOF_MSG : List Char :=
  "failed to fill whole buffer".toList

/-- Model of `Handshake::receive` from handshake.rs. The TCP stream is
modelled by the list of bytes it delivers before closing: `read_exact`
of 68 bytes succeeds exactly when at least 68 bytes arrive, and
otherwise fails with the wrapped read error. -/
def Handshake.receive (stream : List Nat) : Except (List Char) Handshake :=
  if stream.length < HANDSHAKE_LENGTH then
    .error ("Failed to read handshake: ".toList ++ READ_EOF_MSG)
  else
    Handshake.deserialize (stream.take HANDSHAKE_LENGTH)

/-- Model of `Handshake::exchange` from handshake.rs. The outgoing
write is modelled by returning the serialized bytes that `send` puts
on the stream; the incoming side of the stream is the byte list
`input`. The second component is the call result: the received
handshake when its info hash matches the one sent, an error otherwise. -/
def Handshake.exchange (input : List Nat) (info_hash peer_id : List Nat) :
    List Nat × Except (List Char) Handshake :=
  let handshake := Handshake.new info_hash peer_id
  (handshake.serialize,
    match Handshake.receive input with
    | .error e => .error e
    | .ok response =>
      if response.info_hash ≠ info_hash then
        .error "Info hash mismatch in handshake response".toList
      else
        .ok response)

/-- Model of the `Seeder` struct from serve.rs. -/
structure Seeder where
  address : List Char
  port : Nat
  peer_id : List Nat
  info_hashes : List (List Nat)
deriving Repr, DecidableEq

/-- Model of `Seeder::new` from serve.rs. The freshly generated peer
id (`generate_peer_id()` in Rust, a random 20-byte KSUID) is passed in
explicitly. -/
def Seeder.new (address : List Char) (port : Nat) (peer_id : List Nat) : Seeder :=
  { address := address, port := port, peer_id := peer_id, info_hashes := [] }

/-- Model of `Seeder::add_torrent` from serve.rs: a `Vec::push` onto
the list of served info hashes. -/
def Seeder.add_torrent (s : Seeder) (info_hash : List Nat) : Seeder :=
  { s with info_hashes := s.info_hashes ++ [info_hash] }

/-- Byte decoding of consecutive two-character hex slices, modelling
the `for i in 0..20` loop shared by `Seeder::add_torrent_hex` and
`Handshake::from_hex` (a trailing single character cannot occur under
the callers' length-40 guard and is mapped to the same error). -/
def hex_pairs_to_bytes : List Char → Except (List Char) (List Nat)
  | [] => .ok []
  | [_] => .error "Invalid hex: invalid digit found in string".toList
  | c1 :: c2 :: rest =>
    match u8_from_str_radix16 [c1, c2] with
    | some b =>
      match hex_pairs_to_bytes rest with
      | .ok bs => .ok (b :: bs)
      | .error e => .error e
    | none => .error "Invalid hex: invalid digit found in string".toList

/-- Model of `Seeder::add_torrent_hex` from serve.rs: validates the
length, decodes twenty hex byte pairs, and pushes the decoded hash.
The Rust method mutates `self` and returns `Result<(), String>`; the
model returns the updated seeder in the success case. -/
def Seeder.add_torrent_hex (s : Seeder) (info_hash_hex : List Char) :
    Except (List Char) Seeder :=
  if info_hash_hex.length ≠ 40 then
    .error ("Invalid info hash length: expected 40, got ".toList
      ++ natToDec info_hash_hex.length)
  else
    match hex_pairs_to_bytes info_hash_hex with
    | .ok bytes => .ok (s.add_torrent bytes)
    | .error e => .error e

/-- Model of `Handshake::from_hex` from handshake.rs: the same
length-40 guard and hex pair loop, then `Handshake::new`. -/
def Handshake.from_hex (info_hash_hex : List Char) (peer_id : List Nat) :
    Except (List Char) Handshake :=
  if info_hash_hex.length ≠ 40 then
    .error ("Invalid info hash length: expected 40, got ".toList
      ++ natToDec info_hash_hex.length)
  else
    match hex_pairs_to_bytes info_hash_hex with
    | .ok bytes => .ok (Handshake.new bytes peer_id)
    | .error e => .error e

/-- Model of `Seeder::handle_connection` from serve.rs: receive a
handshake from the connection (modelled by its delivered bytes), check
membership of its info hash in the served list, and reply with a
handshake carrying that info hash and the seeder's own peer id. The
success value is the byte list the reply `send` writes to the stream. -/
def Seeder.handle_connection (s : Seeder) (input : List Nat) :
    Except (List Char) (List Nat) :=
  match Handshake.receive input with
  | .error e => .error e
  | .ok handshake =>
    if !(s.info_hashes.contains handshake.info_hash) then
      .error ("We don\x27t have torrent with info hash: ".toList
        ++ bytesToHex handshake.info_hash)
    else
      .ok (Handshake.serialize (Handshake.new handshake.info_hash s.peer_id))

/-- One event of the accept loop in `Seeder::listen`: either an
accepted connection (with the result of its `peer_addr()` call and the
bytes the peer sends), or a failed accept. -/
inductive ConnEvent where
  | accepted (peerAddrResult : Except (List Char) (List Char)) (bytes : List Nat)
  | acceptFailed (err : List Char)
deriving Repr

/-- Model of the accept loop of `Seeder::listen` from serve.rs over a
finite list of connection events (socket binding is outside the model).
A failed accept is logged and skipped; on an accepted connection the
loop first queries `peer_addr()` inside a log statement with the `?`
operator, so a failing `peer_addr()` makes `listen` return that error
at once; otherwise `handle_connection` runs and its result is only
logged. The first component collects the `handle_connection` results
of the connections actually handled, the second is the return value of
`listen`. -/
def Seeder.listen (s : Seeder) :
    List ConnEvent → List (Except (List Char) (List Nat)) × Except (List Char) Unit
  | [] => ([], .ok ())
  | ConnEvent.acceptFailed _ :: rest => Seeder.listen s rest
  | ConnEvent.accepted (.error e) _ :: _ => ([], .error e)
  | ConnEvent.accepted (.ok _) bytes :: rest =>
    let outs := Seeder.listen s rest
    (s.handle_connection bytes :: outs.1, outs.2)

/-- Join of query pieces with ampersands, the shape `to_url` produces:
a first piece followed by zero or more ampersand-prefixed pieces. -/
def joinAmp (p : List Char) (ps : List (List Char)) : List Char :=
  p ++ ps.flatMap fun q => '&' :: q

/-- Lowercase hexadecimal digit test (0-9 and a-f only). -/
def isLowerHexDigit (c : Char) : Bool :=
  (48 <= c.toNat && c.toNat <= 57) || (97 <= c.toNat && c.toNat <= 102)

/-- Modelled from the spec: the base-32 alphabet of content hashes
(letters in either case and the digits 2 to 7), used only to compare
the implemented validation against the specified one. -/
def base32Alphabet (c : Char) : Bool :=
  (65 <= c.toNat && c.toNat <= 90) || (97 <= c.toNat && c.toNat <= 122) ||
  (50 <= c.toNat && c.toNat <= 55)

/-- The non-xt query pieces that `to_url` emits, each without its
leading ampersand. -/
def magnetPieces (m : MagnetLink) : List (List Char) :=
  (match m.display_name with
   | some name => ["dn=".toList ++ url_encode name]
   | none => [])
  ++ m.trackers.map (fun t => "tr=".toList ++ url_encode t)
  ++ (match m.exact_length with
      | some l => ["xl=".toList ++ natToDec l]
      | none => [])

/-- The key-value pairs that parsing the query of `to_url` yields. -/
def magnetParams (m : MagnetLink) : List (List Char × List Char) :=
  ("xt".toList, "urn:btih:".toList ++ m.info_hash)
  :: ((match m.display_name with
       | some name => [("dn".toList, url_encode name)]
       | none => [])
      ++ m.trackers.map (fun t => ("tr".toList, url_encode t))
      ++ (match m.exact_length with
          | some l => [("xl".toList, natToDec l)]
          | none => []))

/-- One valid two-character byte slice for the hex decoding loop: two
hex digits, or a plus sign followed by a hex digit (the sign that
`u8::from_str_radix` accepts). -/
def validHexPair (c1 c2 : Char) : Bool :=
  (isAsciiHexDigit c1 || c1 = '+') && isAsciiHexDigit c2

/-- All consecutive two-character slices are valid byte slices (odd
lengths fail). -/
def validHexPairs : List Char -> Bool
  | [] => true
  | [_] => false
  | c1 :: c2 :: rest => validHexPair c1 c2 && validHexPairs rest

deriving instance DecidableEq for Except

/-- Code points below the surrogate range are preserved by `Char.ofNat`. -/
theorem toNat_ofNat_small {n : Nat} (h : n < 55296) : (Char.ofNat n).toNat = n := by
  unfold Char.ofNat
  split
  · rfl
  · rename_i hv
    exact absurd (Or.inl h) hv

/-- Characterization of `Char.isDigit` by code point. -/
theorem isDigit_iff {c : Char} : c.isDigit = true ↔ 48 ≤ c.toNat ∧ c.toNat ≤ 57 := by
  simp [Char.isDigit]
  exact Iff.rfl

/-- Fuel irrelevance for the decimal digit recursion: any fuel above
the number computes the same digits. -/
theorem natToDecAux_fuel (f1 f2 : Nat) {n : Nat} (h1 : n < f1) (h2 : n < f2) :
    natToDecAux f1 n = natToDecAux f2 n := by
  induction n using Nat.strong_induction_on generalizing f1 f2 with
  | _ n ih =>
    cases f1 with
    | zero => omega
    | succ g1 =>
      cases f2 with
      | zero => omega
      | succ g2 =>
        rw [natToDecAux, natToDecAux]
        split
        all_goals try rfl
        all_goals
          rename_i h
          have hd : n / 10 < n := Nat.div_lt_self (by omega) (by omega)
          rw [ih (n / 10) hd g1 g2 (by omega) (by omega)]

/-- Unfolding equation of `natToDec` in its intended recursive form. -/
theorem natToDec_unfold (n : Nat) :
    natToDec n = if n < 10 then [Char.ofNat (48 + n)]
      else natToDec (n / 10) ++ [Char.ofNat (48 + n % 10)] := by
  rw [natToDec, natToDecAux]
  split
  all_goals try rfl
  all_goals
    rename_i h
    have hd : n / 10 < n := Nat.div_lt_self (by omega) (by omega)
    rw [natToDec,
      show natToDecAux n (n / 10) = natToDecAux (n / 10 + 1) (n / 10) from
        natToDecAux_fuel n (n / 10 + 1) (by omega) (by omega)]

/-- Every character of the decimal rendering is a decimal digit. -/
theorem natToDec_digits {n : Nat} : ∀ c ∈ natToDec n, 48 ≤ c.toNat ∧ c.toNat ≤ 57 := by
  induction n using Nat.strong_induction_on with
  | _ n ih =>
    rw [natToDec_unfold]
    split
    · rename_i h
      intro c hc
      simp only [List.mem_singleton] at hc
      subst hc
      rw [toNat_ofNat_small (by omega)]
      omega
    · rename_i h
      intro c hc
      rcases List.mem_append.mp hc with h1 | h2
      · exact ih (n / 10) (Nat.div_lt_self (by omega) (by omega)) c h1
      · simp only [List.mem_singleton] at h2
        subst h2
        rw [toNat_ofNat_small (by omega)]
        have := Nat.mod_lt n (y := 10) (by omega)
        omega

/-- The decimal rendering is never empty. -/
theorem natToDec_ne_nil (n : Nat) : natToDec n ≠ [] := by
  rw [natToDec_unfold]
  split
  · simp
  · simp

/-- Folding the digit-accumulation step over the decimal rendering of a
number recovers the number. -/
theorem foldl_natToDec (n : Nat) :
    (natToDec n).foldl (fun a c => 10 * a + (c.toNat - 48)) 0 = n := by
  induction n using Nat.strong_induction_on with
  | _ n ih =>
    rw [natToDec_unfold]
    split
    · rename_i h
      simp only [List.foldl]
      rw [toNat_ofNat_small (by omega)]
      omega
    · rename_i h
      rw [List.foldl_append, ih (n / 10) (Nat.div_lt_self (by omega) (by omega))]
      simp only [List.foldl]
      rw [toNat_ofNat_small (by omega)]
      have := Nat.mod_lt n (y := 10) (by omega)
      omega

/-- Parsing the decimal rendering of a number within the u64 range
recovers the number. -/
theorem parse_u64_natToDec {n : Nat} (h : n < 2 ^ 64) :
    parse_u64 (natToDec n) = some n := by
  obtain ⟨c, rest, hcr⟩ : ∃ c rest, natToDec n = c :: rest := by
    cases hd : natToDec n with
    | nil => exact absurd hd (natToDec_ne_nil n)
    | cons c rest => exact ⟨c, rest, rfl⟩
  have hcd : 48 ≤ c.toNat ∧ c.toNat ≤ 57 :=
    natToDec_digits c (hcr ▸ List.mem_cons_self c rest)
  have hcm : ¬ c = '-' := by
    intro he
    rw [he] at hcd
    exact absurd hcd (by decide)
  have hcp : ¬ c = '+' := by
    intro he
    rw [he] at hcd
    exact absurd hcd (by decide)
  have hall : (c :: rest).all Char.isDigit = true := by
    rw [List.all_eq_true]
    intro x hx
    exact isDigit_iff.mpr (natToDec_digits x (hcr ▸ hx))
  have hfold : (c :: rest).foldl (fun a c => 10 * a + (c.toNat - 48)) 0 = n := by
    rw [← hcr]
    exact foldl_natToDec n
  rw [hcr]
  rw [parse_u64, if_neg hcm]
  simp only [if_neg hcp]
  rw [if_pos (by simp [hall])]
  rw [hfold, if_pos h]

/-- The hex value of an uppercase hex digit recovers its argument. -/
theorem hexVal_hexUpperDigit {n : Nat} (h : n < 16) : hexVal (hexUpperDigit n) = n := by
  interval_cases n <;> decide

/-- Shape facts about uppercase hex digit characters: they are
hexadecimal digits and are none of the separator or sign characters. -/
theorem hexUpperDigit_facts {n : Nat} (h : n < 16) :
    isAsciiHexDigit (hexUpperDigit n) = true ∧ (hexUpperDigit n).toNat ≠ 38 ∧
    (hexUpperDigit n).toNat ≠ 61 ∧ hexUpperDigit n ≠ '+' ∧ hexUpperDigit n ≠ '-' := by
  interval_cases n <;> decide

/-- Characters unequal on code points are unequal. -/
theorem char_ne_of_toNat_ne {a b : Char} (h : a.toNat ≠ b.toNat) : a ≠ b :=
  fun he => h (congrArg Char.toNat he)

/-- Every character that `url_encode_char` emits avoids the query
separators: its code point is neither 38 (the ampersand) nor 61 (the
equals sign). -/
theorem mem_url_encode_char {c d : Char} (h : d ∈ url_encode_char c) :
    d.toNat ≠ 38 ∧ d.toNat ≠ 61 := by
  unfold url_encode_char at h
  split at h
  · rename_i hcond
    simp only [List.mem_singleton] at h
    subst h
    simp only [Bool.or_eq_true, Bool.and_eq_true, decide_eq_true_eq] at hcond
    rcases hcond with ((((((h1 | h2) | h3) | h4) | h5) | h6) | h7)
    · omega
    · omega
    · omega
    · subst h4; decide
    · subst h5; decide
    · subst h6; decide
    · subst h7; decide
  · split at h
    · simp only [List.mem_singleton] at h
      subst h
      decide
    · simp only [List.mem_cons, List.mem_singleton] at h
      have h16a : d.toNat % 256 / 16 < 16 := by omega
      have h16b : d.toNat % 16 < 16 := by omega
      rcases h with h1 | h2 | h3
      · subst h1; decide
      · subst h2
        have := hexUpperDigit_facts (n := c.toNat % 256 / 16) (by omega)
        exact ⟨this.2.1, this.2.2.1⟩
      · simp only [List.not_mem_nil] at h3
        rcases h3 with h3 | h3
        · subst h3
          have := hexUpperDigit_facts (n := c.toNat % 16) (by omega)
          exact ⟨this.2.1, this.2.2.1⟩
        · exact absurd h3 (by simp)

/-- The ampersand never occurs in a percent-encoded string. -/
theorem amp_not_mem_url_encode (s : List Char) : '&' ∉ url_encode s := by
  intro h
  rw [url_encode, List.mem_flatMap] at h
  obtain ⟨c, _, hd⟩ := h
  exact absurd rfl ((mem_url_encode_char hd).1)

/-- The hex value function is bounded by 16. -/
theorem hexVal_lt (c : Char) : hexVal c < 16 := by
  unfold hexVal
  split_ifs with h1 h2 h3
  · simp only [Bool.and_eq_true, decide_eq_true_eq] at h1
    omega
  · simp only [Bool.and_eq_true, decide_eq_true_eq] at h2
    omega
  · simp only [Bool.and_eq_true, decide_eq_true_eq] at h3
    omega
  · omega

/-- Unfolding of `url_decode` on an ordinary character. -/
theorem url_decode_cons_plain {c : Char} (h1 : ¬ c = '%') (h2 : ¬ c = '+')
    (rest : List Char) : url_decode (c :: rest) = c :: url_decode rest := by
  rw [url_decode.eq_def]
  simp only [if_neg h1, if_neg h2]

/-- Unfolding of `url_decode` on a plus sign. -/
theorem url_decode_cons_plus (rest : List Char) :
    url_decode ('+' :: rest) = ' ' :: url_decode rest := by
  rw [url_decode.eq_def]
  simp only [if_neg (by decide : ¬ ('+' : Char) = '%'), if_pos rfl]
  simp

/-- Unfolding of `url_decode` on a decodable percent escape. -/
theorem url_decode_cons_pct {h1 h2 : Char} {b : Nat}
    (hb : u8_from_str_radix16 [h1, h2] = some b) (rest : List Char) :
    url_decode ('%' :: h1 :: h2 :: rest) = Char.ofNat b :: url_decode rest := by
  rw [url_decode.eq_def]
  simp only [if_pos rfl, hb]
  simp

/-- Value of the byte parser on a two-hex-digit pair whose first
character is not a sign. -/
theorem u8_pair {h1 h2 : Char} (hp : ¬ h1 = '+') (hm : ¬ h1 = '-')
    (hx1 : isAsciiHexDigit h1 = true) (hx2 : isAsciiHexDigit h2 = true) :
    u8_from_str_radix16 [h1, h2] = some (16 * hexVal h1 + hexVal h2) := by
  rw [u8_from_str_radix16, if_neg hp, if_neg hm]
  rw [hexDigitsVal, if_neg (by simp), if_pos (by simp [hx1, hx2])]
  simp only [List.foldl]
  have := hexVal_lt h1
  have := hexVal_lt h2
  rw [if_pos (by omega)]
  norm_num

/-- Round trip through percent-encoding: decoding an encoded string
recovers it, provided every character fits in one byte (the Rust
encoder truncates the code point with `as u8`, so larger characters
are not restored faithfully). -/
theorem url_decode_url_encode {s : List Char} (h : ∀ c ∈ s, c.toNat < 256) :
    url_decode (url_encode s) = s := by
  induction s with
  | nil => rfl
  | cons c cs ih =>
    have hc : c.toNat < 256 := h c (List.mem_cons_self c cs)
    have ihh : url_decode (url_encode cs) = cs :=
      ih (fun d hd => h d (List.mem_cons_of_mem c hd))
    have hsplit : url_encode (c :: cs) = url_encode_char c ++ url_encode cs := by
      simp [url_encode]
    rw [hsplit, url_encode_char]
    split_ifs with h1 h2
    · simp only [Bool.or_eq_true, Bool.and_eq_true, decide_eq_true_eq] at h1
      have hpct : ¬ c = '%' := by
        intro he
        subst he
        revert h1
        decide
      have hplus : ¬ c = '+' := by
        intro he
        subst he
        revert h1
        decide
      simp only [List.singleton_append]
      rw [url_decode_cons_plain hpct hplus, ihh]
    · subst h2
      simp only [List.singleton_append]
      rw [url_decode_cons_plus, ihh]
    · have hmod : c.toNat % 256 = c.toNat := Nat.mod_eq_of_lt hc
      have hfacts1 := hexUpperDigit_facts (n := c.toNat % 256 / 16) (by omega)
      have hfacts2 := hexUpperDigit_facts (n := c.toNat % 16) (by omega)
      simp only [List.cons_append, List.nil_append]
      rw [url_decode_cons_pct
        (u8_pair hfacts1.2.2.2.1 hfacts1.2.2.2.2 hfacts1.1 hfacts2.1)]
      rw [hexVal_hexUpperDigit (by omega), hexVal_hexUpperDigit (by omega)]
      rw [ihh, hmod]
      rw [Nat.div_add_mod c.toNat 16]
      rw [Char.ofNat_toNat]

/-- A list is a boolean prefix of itself followed by anything. -/
theorem isPrefixOf_append_self (l r : List Char) : l.isPrefixOf (l ++ r) = true := by
  rw [List.isPrefixOf_iff_prefix]
  exact List.prefix_append l r

/-- Splitting never produces an empty list of pieces. -/
theorem splitOnChar_ne_nil (sep : Char) (l : List Char) : splitOnChar sep l ≠ [] := by
  cases l with
  | nil => simp [splitOnChar]
  | cons c cs =>
    rw [splitOnChar]
    cases splitOnChar sep cs with
    | nil => split <;> split_ifs <;> simp
    | cons h t => split <;> split_ifs <;> simp

/-- A separator-free list splits into the single piece that it is. -/
theorem splitOnChar_no_sep {sep : Char} {l : List Char} (h : sep ∉ l) :
    splitOnChar sep l = [l] := by
  induction l with
  | nil => rfl
  | cons c cs ih =>
    have hc : ¬ c = sep := fun he => h (he ▸ List.mem_cons_self c cs)
    have hcs : sep ∉ cs := fun hm => h (List.mem_cons_of_mem c hm)
    rw [splitOnChar, ih hcs]
    simp [hc]

/-- Splitting a list that starts with a separator-free piece followed
by a separator detaches that piece. -/
theorem splitOnChar_append_sep {sep : Char} {p : List Char} (rest : List Char)
    (h : sep ∉ p) :
    splitOnChar sep (p ++ sep :: rest) = p :: splitOnChar sep rest := by
  induction p with
  | nil =>
    rw [List.nil_append, splitOnChar]
    cases hs : splitOnChar sep rest with
    | nil => exact absurd hs (splitOnChar_ne_nil sep rest)
    | cons a b => simp
  | cons c cs ih =>
    have hc : ¬ c = sep := fun he => h (he ▸ List.mem_cons_self c cs)
    have hcs : sep ∉ cs := fun hm => h (List.mem_cons_of_mem c hm)
    rw [List.cons_append, splitOnChar, ih hcs]
    simp [hc]

/-- Splitting the ampersand join of ampersand-free pieces recovers the
pieces. -/
theorem splitOnChar_joinAmp {p : List Char} {ps : List (List Char)}
    (hp : '&' ∉ p) (hps : ∀ q ∈ ps, '&' ∉ q) :
    splitOnChar '&' (joinAmp p ps) = p :: ps := by
  induction ps generalizing p with
  | nil =>
    rw [joinAmp, List.flatMap_nil, List.append_nil]
    exact splitOnChar_no_sep hp
  | cons q qs ih =>
    have hq : '&' ∉ q := hps q (List.mem_cons_self q qs)
    have hqs : ∀ r ∈ qs, '&' ∉ r := fun r hr => hps r (List.mem_cons_of_mem q hr)
    have hshape : joinAmp p (q :: qs) = p ++ '&' :: joinAmp q qs := by
      rw [joinAmp, joinAmp, List.flatMap_cons, List.cons_append]
    rw [hshape, splitOnChar_append_sep _ hp, ih hq hqs]

/-- Splitting a `key=value` piece with an equals-free key at the first
equals sign recovers the pair. -/
theorem split_once_eq_key {k : List Char} (v : List Char) (hk : '=' ∉ k) :
    split_once_eq (k ++ '=' :: v) = some (k, v) := by
  induction k with
  | nil => rw [List.nil_append, split_once_eq, if_pos rfl]
  | cons c cs ih =>
    have hc : ¬ c = '=' := fun he => hk (he ▸ List.mem_cons_self c cs)
    have hcs : '=' ∉ cs := fun hm => hk (List.mem_cons_of_mem c hm)
    rw [List.cons_append, split_once_eq, if_neg hc, ih hcs]
    rfl

/-- Lookup on a pair list headed by the looked-up key. -/
theorem getAll_cons_self (k v : List Char) (ps : List (List Char × List Char)) :
    getAll k ((k, v) :: ps) = v :: getAll k ps := by
  simp [getAll]

/-- Lookup on a pair list headed by a different key. -/
theorem getAll_cons_ne {k k1 : List Char} (h : ¬ k1 = k) (v : List Char)
    (ps : List (List Char × List Char)) :
    getAll k ((k1, v) :: ps) = getAll k ps := by
  simp [getAll, h]

/-- Lookup distributes over appending pair lists. -/
theorem getAll_append (k : List Char) (a b : List (List Char × List Char)) :
    getAll k (a ++ b) = getAll k a ++ getAll k b :=
  List.filterMap_append a b _

/-- Lookup misses every pair built from a different constant key. -/
theorem getAll_map_ne {k k1 : List Char} (h : ¬ k1 = k) (f : List Char → List Char)
    (l : List (List Char)) :
    getAll k (l.map fun x => (k1, f x)) = [] := by
  induction l with
  | nil => rfl
  | cons x xs ih =>
    rw [List.map_cons, getAll_cons_ne h, ih]

/-- Lookup hits every pair built from the looked-up constant key. -/
theorem getAll_map_self (k : List Char) (f : List Char → List Char)
    (l : List (List Char)) :
    getAll k (l.map fun x => (k, f x)) = l.map f := by
  induction l with
  | nil => rfl
  | cons x xs ih =>
    rw [List.map_cons, getAll_cons_self, ih, List.map_cons]

/-- Characters outside the uppercase range are fixed by `Char.toLower`. -/
theorem toLower_eq_self {c : Char} (h : ¬ (65 ≤ c.toNat ∧ c.toNat ≤ 90)) :
    c.toLower = c := by
  unfold Char.toLower
  rw [if_neg h]

/-- Decimal renderings contain no ampersand. -/
theorem natToDec_no_amp (n : Nat) : '&' ∉ natToDec n := by
  intro h
  have hd := natToDec_digits _ h
  have h38 : ('&').toNat = 38 := rfl
  omega

/-- Prefixing every mapped piece with an ampersand commutes with the
map. -/
theorem flatMap_map_cons_amp (tr : List (List Char)) (f : List Char → List Char) :
    (tr.map f).flatMap (fun q => '&' :: q) = tr.flatMap fun t => '&' :: f t := by
  induction tr with
  | nil => rfl
  | cons t ts ih => simp [ih]

/-- The URL `to_url` builds is the scheme prefix followed by the
ampersand join of the xt piece and the optional pieces. -/
theorem to_url_joinAmp (m : MagnetLink) :
    m.to_url = "magnet:?".toList
      ++ joinAmp ("xt=urn:btih:".toList ++ m.info_hash) (magnetPieces m) := by
  rcases m with ⟨ih, dn, tr, xl⟩
  have hlit : "magnet:?xt=urn:btih:".toList
      = "magnet:?".toList ++ "xt=urn:btih:".toList := rfl
  have hdnlit : "&dn=".toList = '&' :: "dn=".toList := rfl
  have htrlit : "&tr=".toList = '&' :: "tr=".toList := rfl
  have hxllit : "&xl=".toList = '&' :: "xl=".toList := rfl
  rw [MagnetLink.to_url, joinAmp, magnetPieces]
  cases dn <;> cases xl <;>
    simp [hlit, hdnlit, htrlit, hxllit, List.flatMap_append, List.flatMap_cons,
      List.append_assoc, Function.comp, flatMap_map_cons_amp]

/-- Splitting a piece that starts with a two-character key and an
equals sign. -/
theorem split_once_two_key (a b : Char) (e : List Char) (ha : ¬ a = '=')
    (hb : ¬ b = '=') :
    split_once_eq (a :: b :: '=' :: e) = some ([a, b], e) := by
  rw [split_once_eq, if_neg ha, split_once_eq, if_neg hb, split_once_eq, if_pos rfl]
  rfl

/-- Splitting each encoded tracker piece yields its key-value pair. -/
theorem filterMap_split_tr (tr : List (List Char)) :
    List.filterMap (split_once_eq ∘ fun t => 't' :: 'r' :: '=' :: url_encode t) tr
      = tr.map fun t => (['t', 'r'], url_encode t) := by
  induction tr with
  | nil => rfl
  | cons t ts ih =>
    have hs : split_once_eq ('t' :: 'r' :: '=' :: url_encode t)
        = some (['t', 'r'], url_encode t) :=
      split_once_two_key 't' 'r' (url_encode t) (by decide) (by decide)
    rw [List.filterMap_cons]
    simp only [Function.comp]
    rw [hs, ih, List.map_cons]

/-- Parsing the query string of `to_url` yields exactly the key-value
pairs of the magnet link, provided the raw info hash contains no
ampersand. -/
theorem parse_query_params_to_url (m : MagnetLink) (hih : '&' ∉ m.info_hash) :
    parse_query_params (m.to_url.drop 8) = magnetParams m := by
  rw [to_url_joinAmp]
  have hdrop : ("magnet:?".toList
      ++ joinAmp ("xt=urn:btih:".toList ++ m.info_hash) (magnetPieces m)).drop 8
      = joinAmp ("xt=urn:btih:".toList ++ m.info_hash) (magnetPieces m) := by
    rw [show (8 : Nat) = ("magnet:?".toList).length from rfl, List.drop_left]
  rw [hdrop, parse_query_params]
  have hp0 : '&' ∉ "xt=urn:btih:".toList ++ m.info_hash := by
    intro h
    rcases List.mem_append.mp h with h | h
    · revert h
      decide
    · exact hih h
  have hpieces : ∀ q ∈ magnetPieces m, '&' ∉ q := by
    intro q hq hmem
    rw [magnetPieces] at hq
    rcases List.mem_append.mp hq with hq1 | hq1
    · rcases List.mem_append.mp hq1 with hq2 | hq2
      · cases hdn : m.display_name with
        | none =>
          rw [hdn] at hq2
          exact absurd hq2 (by simp)
        | some name =>
          rw [hdn] at hq2
          simp only [List.mem_singleton] at hq2
          subst hq2
          rcases List.mem_append.mp hmem with h | h
          · revert h
            decide
          · exact amp_not_mem_url_encode name h
      · rw [List.mem_map] at hq2
        obtain ⟨t, _, hqt⟩ := hq2
        subst hqt
        rcases List.mem_append.mp hmem with h | h
        · revert h
          decide
        · exact amp_not_mem_url_encode t h
    · cases hxl : m.exact_length with
      | none =>
        rw [hxl] at hq1
        exact absurd hq1 (by simp)
      | some l =>
        rw [hxl] at hq1
        simp only [List.mem_singleton] at hq1
        subst hq1
        rcases List.mem_append.mp hmem with h | h
        · revert h
          decide
        · exact natToDec_no_amp l h
  rw [splitOnChar_joinAmp hp0 hpieces, magnetParams, magnetPieces]
  have hs0 : ∀ e : List Char, split_once_eq ('x' :: 't' :: '=' :: e)
      = some (['x', 't'], e) :=
    fun e => split_once_two_key 'x' 't' e (by decide) (by decide)
  have hsdn : ∀ e : List Char, split_once_eq ('d' :: 'n' :: '=' :: e)
      = some (['d', 'n'], e) :=
    fun e => split_once_two_key 'd' 'n' e (by decide) (by decide)
  have hsxl : ∀ e : List Char, split_once_eq ('x' :: 'l' :: '=' :: e)
      = some (['x', 'l'], e) :=
    fun e => split_once_two_key 'x' 'l' e (by decide) (by decide)
  cases hdn : m.display_name <;> cases hxl : m.exact_length <;>
    simp [List.filterMap_cons, List.filterMap_append, hs0, hsdn, hsxl,
      filterMap_split_tr]

/-- The xt lookup on the parsed magnet parameters. -/
theorem getAll_magnet_xt (m : MagnetLink) :
    getAll "xt".toList (magnetParams m) = ["urn:btih:".toList ++ m.info_hash] := by
  rw [magnetParams]
  cases m.display_name <;> cases m.exact_length <;>
    simp [getAll, List.filterMap_append, List.filterMap_map, Function.comp]

/-- The dn lookup on the parsed magnet parameters. -/
theorem getAll_magnet_dn (m : MagnetLink) :
    getAll "dn".toList (magnetParams m)
      = (match m.display_name with
         | some name => [url_encode name]
         | none => []) := by
  rw [magnetParams]
  cases m.display_name <;> cases m.exact_length <;>
    simp [getAll, List.filterMap_append, List.filterMap_map, Function.comp]

/-- Filtering the tracker pairs for their own key keeps every encoded
value. -/
theorem filterMap_tr_self (tr : List (List Char)) :
    List.filterMap ((fun p : List Char × List Char =>
        if p.1 = ['t', 'r'] then some p.2 else none)
      ∘ fun t => (['t', 'r'], url_encode t)) tr = tr.map url_encode := by
  induction tr with
  | nil => rfl
  | cons t ts ih => simp [List.filterMap_cons, Function.comp, ih]

/-- The tr lookup on the parsed magnet parameters. -/
theorem getAll_magnet_tr (m : MagnetLink) :
    getAll "tr".toList (magnetParams m) = m.trackers.map url_encode := by
  rw [magnetParams]
  cases m.display_name <;> cases m.exact_length <;>
    simp [getAll, List.filterMap_append, List.filterMap_map, Function.comp,
      filterMap_tr_self]

/-- The xl lookup on the parsed magnet parameters. -/
theorem getAll_magnet_xl (m : MagnetLink) :
    getAll "xl".toList (magnetParams m)
      = (match m.exact_length with
         | some l => [natToDec l]
         | none => []) := by
  rw [magnetParams]
  cases m.display_name <;> cases m.exact_length <;>
    simp [getAll, List.filterMap_append, List.filterMap_map, Function.comp]

/-- Extraction of a well-formed info hash from its urn form: length 40
all-hex or length 32, already lowercase. -/
theorem extract_ok {ih : List Char} (hlen : ih.length = 40 ∨ ih.length = 32)
    (hhex : ih.length = 40 → ih.all isAsciiHexDigit = true)
    (hlow : ∀ c ∈ ih, Char.toLower c = c) :
    extract_info_hash ("urn:btih:".toList ++ ih) = .ok ih := by
  have hmap : ih.map Char.toLower = ih := by
    rw [show ih.map Char.toLower = ih.map id from List.map_congr_left hlow,
      List.map_id]
  have hdrop : ("urn:btih:".toList ++ ih).drop 9 = ih := by
    rw [show (9 : Nat) = ("urn:btih:".toList).length from rfl, List.drop_left]
  rw [extract_info_hash, if_pos (isPrefixOf_append_self _ _)]
  simp only [hdrop]
  rcases hlen with h40 | h32
  · rw [if_neg (by simp [h40]), if_neg (by simp [h40, hhex h40]), hmap]
  · rw [if_neg (by simp [h32]), if_neg (by simp [h32]), hmap]

/-- C1 (amended): parsing the serialized URL of a MagnetLink recovers
the link on all four fields, for every link whose info hash is either
40 lowercase hexadecimal characters or 32 ASCII characters that are
not uppercase letters and not the separators of the query syntax,
whose display name and trackers use only single-byte characters, and
whose exact length fits in a u64. -/
theorem C1_magnet_roundtrip (m : MagnetLink)
    (hih : (m.info_hash.length = 40 ∧ m.info_hash.all isLowerHexDigit = true) ∨
      (m.info_hash.length = 32 ∧ ∀ c ∈ m.info_hash,
        c.toNat < 128 ∧ ¬ (65 ≤ c.toNat ∧ c.toNat ≤ 90) ∧ c ≠ '&' ∧ c ≠ '='))
    (hdn : ∀ name ∈ m.display_name, ∀ c ∈ name, c.toNat < 256)
    (htr : ∀ t ∈ m.trackers, ∀ c ∈ t, c.toNat < 256)
    (hxl : ∀ l ∈ m.exact_length, l < 2 ^ 64) :
    MagnetLink.parse m.to_url = Except.ok m := by
  have hamp : '&' ∉ m.info_hash := by
    rcases hih with ⟨_, hall⟩ | ⟨_, hall⟩
    · intro hm
      have h1 := List.all_eq_true.mp hall _ hm
      exact absurd h1 (by decide)
    · intro hm
      exact (hall _ hm).2.2.1 rfl
  have hlow : ∀ c ∈ m.info_hash, Char.toLower c = c := by
    rcases hih with ⟨_, hall⟩ | ⟨_, hall⟩
    · intro c hc
      have h1 := List.all_eq_true.mp hall _ hc
      simp only [isLowerHexDigit, Bool.or_eq_true, Bool.and_eq_true,
        decide_eq_true_eq] at h1
      exact toLower_eq_self (by omega)
    · intro c hc
      exact toLower_eq_self (hall c hc).2.1
  have hlen : m.info_hash.length = 40 ∨ m.info_hash.length = 32 := by
    rcases hih with ⟨h, _⟩ | ⟨h, _⟩
    · exact Or.inl h
    · exact Or.inr h
  have hhex : m.info_hash.length = 40 → m.info_hash.all isAsciiHexDigit = true := by
    intro h40
    rcases hih with ⟨_, hall⟩ | ⟨h32, _⟩
    · rw [List.all_eq_true] at hall ⊢
      intro c hc
      have h1 := hall c hc
      simp only [isLowerHexDigit, Bool.or_eq_true, Bool.and_eq_true,
        decide_eq_true_eq] at h1
      simp only [isAsciiHexDigit, Bool.or_eq_true, Bool.and_eq_true,
        decide_eq_true_eq]
      omega
    · omega
  have hdn2 : (match m.display_name with
      | some name => [url_encode name]
      | none => ([] : List (List Char))).head?.map url_decode = m.display_name := by
    cases hd : m.display_name with
    | none => rfl
    | some name =>
      simp only [List.head?_cons]
      rw [show Option.map url_decode (some (url_encode name))
          = some (url_decode (url_encode name)) from rfl]
      rw [url_decode_url_encode (hdn name (by rw [hd]; rfl))]
  have htr2 : (m.trackers.map url_encode).map url_decode = m.trackers := by
    rw [List.map_map]
    have hcong : ∀ t ∈ m.trackers, (url_decode ∘ url_encode) t = id t :=
      fun t ht => url_decode_url_encode (htr t ht)
    rw [List.map_congr_left hcong, List.map_id]
  have hxl2 : (match m.exact_length with
      | some l => [natToDec l]
      | none => ([] : List (List Char))).head?.bind parse_u64 = m.exact_length := by
    cases hx : m.exact_length with
    | none => rfl
    | some l =>
      simp only [List.head?_cons]
      rw [show (some (natToDec l)).bind parse_u64 = parse_u64 (natToDec l) from rfl]
      rw [parse_u64_natToDec (hxl l (by rw [hx]; rfl))]
  rw [MagnetLink.parse]
  rw [if_pos (by rw [to_url_joinAmp]; exact isPrefixOf_append_self _ _)]
  rw [parse_query_params_to_url m hamp]
  simp only [getAll_magnet_xt, List.head?_cons]
  rw [extract_ok hlen hhex hlow]
  simp only [getAll_magnet_dn, getAll_magnet_tr, getAll_magnet_xl,
    hdn2, htr2, hxl2]

/-- C1 counterexample: the round-trip law fails for the MagnetLink
whose info hash is the empty string (its URL serializes but fails to
parse with a length error), so the law does not hold for every
MagnetLink value. -/
theorem C1_counterexample :
    MagnetLink.parse (MagnetLink.to_url ⟨[], none, [], none⟩)
      ≠ Except.ok ⟨[], none, [], none⟩ := by
  decide

/-- C1 witness: the round trip at a concrete full magnet link. -/
theorem C1_magnet_roundtrip_witness :
    MagnetLink.parse (MagnetLink.to_url
      ⟨"d2474e86c95b19b8bcfdb92bc12c9d44667cfa36".toList,
        some "Ubuntu 20.04".toList,
        ["udp://tracker.example.com:80".toList], some 2147483648⟩)
      = Except.ok
      ⟨"d2474e86c95b19b8bcfdb92bc12c9d44667cfa36".toList,
        some "Ubuntu 20.04".toList,
        ["udp://tracker.example.com:80".toList], some 2147483648⟩ :=
  C1_magnet_roundtrip _ (Or.inl (by decide)) (by decide) (by decide) (by decide)

/-- Computation of `Except.isOk` on a success. -/
theorem isOk_ok {e a : Type} (x : a) : (Except.ok x : Except e a).isOk = true := rfl

/-- Computation of `Except.isOk` on an error. -/
theorem isOk_error {e a : Type} (x : e) :
    (Except.error x : Except e a).isOk = false := rfl

/-- C2 (amended): extracting the info hash from an xt value (all-ASCII,
so byte and character counts agree) succeeds exactly when the value has
the urn:btih: prefix and the remainder is either 40 hexadecimal
characters or exactly 32 characters of arbitrary content (the
32-character branch checks only the length, not the base-32 alphabet);
with the prefix present and a length that is neither 40 nor 32, the
error names both expected lengths. -/
theorem C2_extract_info_hash_iff (xt : List Char)
    (hascii : ∀ c ∈ xt, c.toNat < 128) :
    ((extract_info_hash xt).isOk = true ↔
      (("urn:btih:".toList).isPrefixOf xt = true ∧
        ((xt.drop 9).length = 40 ∧ (xt.drop 9).all isAsciiHexDigit = true ∨
          (xt.drop 9).length = 32)))
    ∧ ((("urn:btih:".toList).isPrefixOf xt = true ∧ (xt.drop 9).length ≠ 40 ∧
        (xt.drop 9).length ≠ 32) →
      extract_info_hash xt = Except.error
        ("Invalid info hash length: expected 40 (hex) or 32 (base32), got ".toList
          ++ natToDec (xt.drop 9).length)) := by
  by_cases hpre : ("urn:btih:".toList).isPrefixOf xt = true
  · rw [extract_info_hash, if_pos hpre]
    by_cases h40 : (xt.drop 9).length = 40
    · have hn1 : ¬ (((xt.drop 9).length ≠ 40 && (xt.drop 9).length ≠ 32) = true) := by
        simp only [Bool.and_eq_true, decide_eq_true_eq]
        rintro ⟨h, _⟩
        exact h h40
      by_cases hhex : (xt.drop 9).all isAsciiHexDigit = true
      · rw [if_neg hn1, if_neg (by rw [hhex]; simp)]
        refine ⟨?_, ?_⟩
        · simp only [isOk_ok, true_iff]
          exact ⟨hpre, Or.inl ⟨h40, hhex⟩⟩
        · rintro ⟨_, hn40, _⟩
          exact absurd h40 hn40
      · have heqf : (xt.drop 9).all isAsciiHexDigit = false := by
          revert hhex
          cases (xt.drop 9).all isAsciiHexDigit <;> simp
        rw [if_neg hn1, if_pos (by
          rw [heqf]
          simp only [Bool.not_false, Bool.and_true, decide_eq_true_eq]
          exact h40)]
        refine ⟨?_, ?_⟩
        · simp only [isOk_error, Bool.false_eq_true, false_iff]
          rintro ⟨_, hor⟩
          rcases hor with ⟨_, hx⟩ | h32
          · exact absurd hx hhex
          · omega
        · rintro ⟨_, hn40, _⟩
          exact absurd h40 hn40
    · by_cases h32 : (xt.drop 9).length = 32
      · have hn1 : ¬ (((xt.drop 9).length ≠ 40 && (xt.drop 9).length ≠ 32) = true) := by
          simp only [Bool.and_eq_true, decide_eq_true_eq]
          rintro ⟨_, h⟩
          exact h h32
        have hn2 : ¬ (((xt.drop 9).length = 40 && !((xt.drop 9).all isAsciiHexDigit)) = true) := by
          simp only [Bool.and_eq_true, decide_eq_true_eq]
          rintro ⟨h, _⟩
          exact h40 h
        rw [if_neg hn1, if_neg hn2]
        refine ⟨?_, ?_⟩
        · simp only [isOk_ok, true_iff]
          exact ⟨hpre, Or.inr h32⟩
        · rintro ⟨_, _, hn32⟩
          exact absurd h32 hn32
      · rw [if_pos (by
          simp only [Bool.and_eq_true, decide_eq_true_eq]
          exact ⟨h40, h32⟩)]
        refine ⟨?_, fun _ => rfl⟩
        simp only [isOk_error, Bool.false_eq_true, false_iff]
        rintro ⟨_, hor⟩
        rcases hor with ⟨hx, _⟩ | hx
        · exact absurd hx h40
        · exact absurd hx h32
  · rw [extract_info_hash, if_neg hpre]
    refine ⟨?_, ?_⟩
    · simp only [isOk_error, Bool.false_eq_true, false_iff]
      rintro ⟨hp, _⟩
      exact absurd hp hpre
    · rintro ⟨hp, _⟩
      exact absurd hp hpre

/-- C2 counterexample: a magnet URL whose 32-character hash consists of
characters outside every base-32 alphabet still parses successfully,
so parse does not require a base-32 alphabet for 32-character hashes. -/
theorem C2_counterexample :
    (MagnetLink.parse ("magnet:?xt=urn:btih:".toList ++ List.replicate 32 '#')).isOk
      = true
    ∧ (List.replicate 32 '#').all base32Alphabet = false
    ∧ (List.replicate 32 '#').all isAsciiHexDigit = false := by
  decide

/-- C2 witness: the characterization applied to the standard hex xt
value. -/
theorem C2_extract_info_hash_iff_witness :
    ((extract_info_hash
        "urn:btih:d2474e86c95b19b8bcfdb92bc12c9d44667cfa36".toList).isOk = true ↔
      (("urn:btih:".toList).isPrefixOf
          "urn:btih:d2474e86c95b19b8bcfdb92bc12c9d44667cfa36".toList = true ∧
        ((("urn:btih:d2474e86c95b19b8bcfdb92bc12c9d44667cfa36".toList).drop 9).length = 40 ∧
            (("urn:btih:d2474e86c95b19b8bcfdb92bc12c9d44667cfa36".toList).drop 9).all
              isAsciiHexDigit = true ∨
          (("urn:btih:d2474e86c95b19b8bcfdb92bc12c9d44667cfa36".toList).drop 9).length = 32)))
    ∧ ((("urn:btih:".toList).isPrefixOf
          "urn:btih:d2474e86c95b19b8bcfdb92bc12c9d44667cfa36".toList = true ∧
        (("urn:btih:d2474e86c95b19b8bcfdb92bc12c9d44667cfa36".toList).drop 9).length ≠ 40 ∧
        (("urn:btih:d2474e86c95b19b8bcfdb92bc12c9d44667cfa36".toList).drop 9).length ≠ 32) →
      extract_info_hash "urn:btih:d2474e86c95b19b8bcfdb92bc12c9d44667cfa36".toList
        = Except.error
        ("Invalid info hash length: expected 40 (hex) or 32 (base32), got ".toList
          ++ natToDec
            (("urn:btih:d2474e86c95b19b8bcfdb92bc12c9d44667cfa36".toList).drop 9).length)) :=
  C2_extract_info_hash_iff _ (by decide)

/-- C3 counterexample: adding the same identifier twice does not leave
the Seeder in the same state as adding it once; the served list gains
a duplicate entry, so `add_torrent` is not idempotent on the state. -/
theorem C3_counterexample :
    ((Seeder.new "127.0.0.1".toList 6881 (List.replicate 20 7)).add_torrent
        (List.replicate 20 1)).add_torrent (List.replicate 20 1)
      ≠ (Seeder.new "127.0.0.1".toList 6881 (List.replicate 20 7)).add_torrent
        (List.replicate 20 1) := by
  decide

/-- C3 (amended): `add_torrent` is idempotent observationally though
not on the raw state: the duplicated entry changes neither membership
in the served list nor the outcome of `handle_connection`, the only
operation that consults it. -/
theorem C3_add_torrent_observational (s : Seeder) (h x input : List Nat) :
    (((s.add_torrent h).add_torrent h).info_hashes.contains x
      = (s.add_torrent h).info_hashes.contains x)
    ∧ (((s.add_torrent h).add_torrent h).handle_connection input
      = (s.add_torrent h).handle_connection input) := by
  have hc : ∀ y : List Nat,
      ((s.add_torrent h).add_torrent h).info_hashes.contains y
        = (s.add_torrent h).info_hashes.contains y := by
    intro y
    simp [Seeder.add_torrent]
  refine ⟨hc x, ?_⟩
  rw [Seeder.handle_connection, Seeder.handle_connection]
  cases hr : Handshake.receive input with
  | error e => rfl
  | ok hs => simp [hc hs.info_hash, Seeder.add_torrent]

/-- The byte parser succeeds on a two-character slice exactly when the
slice is a valid hex pair (two hex digits, or a plus sign then a hex
digit). -/
theorem u8_two_isSome (c1 c2 : Char) :
    (u8_from_str_radix16 [c1, c2]).isSome = validHexPair c1 c2 := by
  rw [u8_from_str_radix16, validHexPair]
  by_cases h1 : c1 = '+'
  · rw [if_pos h1, h1]
    rw [hexDigitsVal]
    rw [if_neg (by simp)]
    cases h2 : isAsciiHexDigit c2
    · simp [h2]
    · have hlt := hexVal_lt c2
      simp [h2]
      omega
  · rw [if_neg h1]
    by_cases hm : c1 = '-'
    · rw [if_pos hm, hm]
      simp [validHexPair]
      intro hx
      exact absurd hx (by decide)
    · rw [if_neg hm]
      rw [hexDigitsVal]
      rw [if_neg (by simp)]
      cases hx1 : isAsciiHexDigit c1
      · simp [hx1, h1]
      · cases hx2 : isAsciiHexDigit c2
        · simp [hx1, hx2]
        · have hlt1 := hexVal_lt c1
          have hlt2 := hexVal_lt c2
          simp [hx1, hx2]
          omega

/-- The hex byte loop succeeds exactly when every two-character slice
is a valid hex pair. -/
theorem hex_pairs_to_bytes_isOk : ∀ l : List Char,
    (hex_pairs_to_bytes l).isOk = validHexPairs l
  | [] => rfl
  | [_] => rfl
  | c1 :: c2 :: rest => by
    rw [hex_pairs_to_bytes, validHexPairs]
    have hu := u8_two_isSome c1 c2
    have ih := hex_pairs_to_bytes_isOk rest
    cases hv : u8_from_str_radix16 [c1, c2] with
    | none =>
      rw [hv] at hu
      simp [← hu, isOk_error]
    | some b =>
      rw [hv] at hu
      cases hr : hex_pairs_to_bytes rest with
      | ok bs =>
        rw [hr] at ih
        simp [← hu, ← ih, isOk_ok]
      | error e =>
        rw [hr] at ih
        simp [← hu, ← ih, isOk_error]

/-- C4 (amended): for every all-ASCII input string (so byte and
character counts agree and no slice can split a character),
`add_torrent_hex` is total and succeeds exactly when the string has
length 40 and every consecutive two-character slice is either two hex
digits or a plus sign followed by a hex digit (the sign that
`u8::from_str_radix` accepts); on every other such input it returns a
format error. -/
theorem C4_add_torrent_hex_iff (s : Seeder) (hex : List Char)
    (hascii : ∀ c ∈ hex, c.toNat < 128) :
    (s.add_torrent_hex hex).isOk = true ↔
      (hex.length = 40 ∧ validHexPairs hex = true) := by
  rw [Seeder.add_torrent_hex]
  by_cases hl : hex.length = 40
  · rw [if_neg (by simp [hl])]
    have hok := hex_pairs_to_bytes_isOk hex
    cases hb : hex_pairs_to_bytes hex with
    | ok bs =>
      rw [hb] at hok
      simp [isOk_ok, hl, ← hok]
    | error e =>
      rw [hb] at hok
      simp [isOk_error, hl, ← hok]
  · rw [if_pos (by simp [hl])]
    simp [isOk_error, hl]

/-- C4 counterexample: a 40-character ASCII string of plus-sign pairs
is accepted by `add_torrent_hex` although it contains characters that
are not hexadecimal digits, so success is not limited to 40 hex
digits. -/
theorem C4_counterexample :
    ((Seeder.new "127.0.0.1".toList 6881 (List.replicate 20 7)).add_torrent_hex
        "+1+2+3+4+5+6+7+8+9+a+b+c+d+e+f+0+1+2+3+4".toList).isOk = true
    ∧ ("+1+2+3+4+5+6+7+8+9+a+b+c+d+e+f+0+1+2+3+4".toList).length = 40
    ∧ ("+1+2+3+4+5+6+7+8+9+a+b+c+d+e+f+0+1+2+3+4".toList).all isAsciiHexDigit
      = false := by
  decide

/-- C4 witness: the characterization applied to a well-formed hex
hash. -/
theorem C4_add_torrent_hex_iff_witness :
    ((Seeder.new "127.0.0.1".toList 6881 (List.replicate 20 7)).add_torrent_hex
        "d2474e86c95b19b8bcfdb92bc12c9d44667cfa36".toList).isOk = true ↔
      (("d2474e86c95b19b8bcfdb92bc12c9d44667cfa36".toList).length = 40 ∧
        validHexPairs "d2474e86c95b19b8bcfdb92bc12c9d44667cfa36".toList = true) :=
  C4_add_torrent_hex_iff _ _ (by decide)

/-- C5: the handshake built by `new` serializes to exactly 68 bytes in
the fixed layout (length byte 19, the 19 protocol bytes, 8 zero
reserved bytes, the 20-byte info hash, the 20-byte peer id), and
`deserialize` rejects any input of sufficient length whose first byte
is not 19 or whose following 19 bytes differ from the protocol
literal. -/
theorem C5_handshake_layout (ih pid data : List Nat)
    (h1 : ih.length = 20) (h2 : pid.length = 20) (h3 : 68 ≤ data.length)
    (h4 : data.headD 0 ≠ 19 ∨ (data.drop 1).take 19 ≠ PROTOCOL_BYTES) :
    (Handshake.new ih pid).serialize
      = 19 :: (PROTOCOL_BYTES ++ List.replicate 8 0 ++ ih ++ pid)
    ∧ (Handshake.new ih pid).serialize.length = 68
    ∧ (Handshake.deserialize data).isOk = false := by
  refine ⟨rfl, ?_, ?_⟩
  · have hp : PROTOCOL_BYTES.length = 19 := by decide
    simp [Handshake.serialize, Handshake.new, h1, h2, hp]
  · rw [Handshake.deserialize,
      if_neg (by simp only [HANDSHAKE_LENGTH]; omega)]
    by_cases hh : data.headD 0 ≠ 19
    · rw [if_pos hh]
      exact isOk_error _
    · rw [if_neg hh]
      rcases h4 with h | h
      · exact absurd h hh
      · rw [if_pos h]
        exact isOk_error _

/-- C5 witness: the layout at concrete inputs and rejection of an
all-zero 68-byte buffer. -/
theorem C5_handshake_layout_witness :
    (Handshake.new (List.replicate 20 1) (List.replicate 20 2)).serialize
      = 19 :: (PROTOCOL_BYTES ++ List.replicate 8 0
        ++ List.replicate 20 1 ++ List.replicate 20 2)
    ∧ (Handshake.new (List.replicate 20 1) (List.replicate 20 2)).serialize.length = 68
    ∧ (Handshake.deserialize (List.replicate 68 0)).isOk = false :=
  C5_handshake_layout (List.replicate 20 1) (List.replicate 20 2)
    (List.replicate 68 0) (by decide) (by decide) (by decide)
    (Or.inl (by decide))

/-- C6 counterexample: on a stream that closes before delivering any
byte, `receive` fails with the wrapped read error of `read_exact`,
whose text contains no digit at all, hence does not mention the
expected length 68. -/
theorem C6_counterexample :
    Handshake.receive ([] : List Nat)
      = Except.error ("Failed to read handshake: failed to fill whole buffer".toList)
    ∧ ("Failed to read handshake: failed to fill whole buffer".toList).all
        (fun c => !c.isDigit) = true := by
  constructor
  · rfl
  · decide

/-- C6 (amended): on fewer than 68 bytes, `receive` always fails with
the wrapped read error and never yields a Handshake, while
`deserialize` applied to the short input fails with the length error
that names the expected length 68. -/
theorem C6_short_input (s : List Nat) (h : s.length < 68) :
    Handshake.receive s
      = Except.error ("Failed to read handshake: ".toList ++ READ_EOF_MSG)
    ∧ Handshake.deserialize s
      = Except.error ("Handshake too short: expected 68, got ".toList
        ++ natToDec s.length) := by
  constructor
  · rw [Handshake.receive]
    rw [if_pos (show s.length < HANDSHAKE_LENGTH from h)]
  · rw [Handshake.deserialize]
    rw [if_pos (show s.length < HANDSHAKE_LENGTH from h)]

/-- C6 witness: the short-input behavior at a 50-byte input. -/
theorem C6_short_input_witness :
    Handshake.receive (List.replicate 50 0)
      = Except.error ("Failed to read handshake: ".toList ++ READ_EOF_MSG)
    ∧ Handshake.deserialize (List.replicate 50 0)
      = Except.error ("Handshake too short: expected 68, got ".toList
        ++ natToDec (List.replicate 50 0).length) :=
  C6_short_input (List.replicate 50 0) (by decide)

/-- C7: when the reply bytes deliver a well-formed handshake, the
exchange fails exactly when the received info hash differs from the
one sent, and returns the received handshake when they agree. -/
theorem C7_exchange_info_hash (input ih pid : List Nat) (r : Handshake)
    (hr : Handshake.receive input = Except.ok r) :
    (r.info_hash ≠ ih → ((Handshake.exchange input ih pid).2).isOk = false)
    ∧ (r.info_hash = ih → (Handshake.exchange input ih pid).2 = Except.ok r) := by
  constructor
  · intro hne
    simp [Handshake.exchange, hr, hne, isOk_error]
  · intro heq
    simp [Handshake.exchange, hr, heq]

/-- C7 witness: the exchange at a concrete matching reply. -/
theorem C7_exchange_info_hash_witness :
    ((Handshake.new (List.replicate 20 3) (List.replicate 20 4)).info_hash
        ≠ List.replicate 20 3 →
      ((Handshake.exchange
        (Handshake.serialize (Handshake.new (List.replicate 20 3) (List.replicate 20 4)))
        (List.replicate 20 3) (List.replicate 20 5)).2).isOk = false)
    ∧ ((Handshake.new (List.replicate 20 3) (List.replicate 20 4)).info_hash
        = List.replicate 20 3 →
      (Handshake.exchange
        (Handshake.serialize (Handshake.new (List.replicate 20 3) (List.replicate 20 4)))
        (List.replicate 20 3) (List.replicate 20 5)).2
        = Except.ok (Handshake.new (List.replicate 20 3) (List.replicate 20 4))) :=
  C7_exchange_info_hash _ _ (List.replicate 20 5) _ (by rfl)

/-- C8: a Seeder with an empty served list rejects every valid
incoming handshake regardless of its info hash, and after adding an
identifier X, a valid handshake carrying X succeeds with a reply
handshake carrying X and the seeder's own peer id. -/
theorem C8_seeder_accept (s : Seeder) (input : List Nat) (h : Handshake)
    (X : List Nat) (hrecv : Handshake.receive input = Except.ok h) :
    (s.info_hashes = [] → (s.handle_connection input).isOk = false)
    ∧ (h.info_hash = X → (s.add_torrent X).handle_connection input
        = Except.ok (Handshake.serialize (Handshake.new X s.peer_id))) := by
  constructor
  · intro hempty
    simp [Seeder.handle_connection, hrecv, hempty, isOk_error]
  · intro hX
    have hmem : (s.add_torrent X).info_hashes.contains h.info_hash = true := by
      simp [Seeder.add_torrent, hX]
    simp [Seeder.handle_connection, hrecv, hmem, Seeder.add_torrent, hX]

/-- C8 witness: the scenario at concrete values. -/
theorem C8_seeder_accept_witness :
    ((Seeder.new "127.0.0.1".toList 6881 (List.replicate 20 7)).info_hashes = [] →
      ((Seeder.new "127.0.0.1".toList 6881 (List.replicate 20 7)).handle_connection
        (Handshake.serialize (Handshake.new (List.replicate 20 1) (List.replicate 20 2)))).isOk
        = false)
    ∧ ((Handshake.new (List.replicate 20 1) (List.replicate 20 2)).info_hash
        = List.replicate 20 1 →
      ((Seeder.new "127.0.0.1".toList 6881 (List.replicate 20 7)).add_torrent
          (List.replicate 20 1)).handle_connection
        (Handshake.serialize (Handshake.new (List.replicate 20 1) (List.replicate 20 2)))
        = Except.ok (Handshake.serialize (Handshake.new (List.replicate 20 1)
          (Seeder.new "127.0.0.1".toList 6881 (List.replicate 20 7)).peer_id))) :=
  C8_seeder_accept _ _ _ _ (by rfl)

/-- C9: evaluating the accept loop at a failing input. The first
accepted connection's `peer_addr()` call fails with an I/O error; the
`?` operator inside the logging statement propagates it, so `listen`
returns that error immediately: no connection is handled (the first
component is empty) and the second, well-formed pending connection is
never served, although the claim requires the loop to continue past
any single connection's failure. -/
theorem C9_listen_aborts_on_peer_addr_error :
    (Seeder.new "127.0.0.1".toList 6881 (List.replicate 20 7)).listen
      [ConnEvent.accepted (Except.error "connection reset by peer".toList) [],
       ConnEvent.accepted (Except.ok "127.0.0.2:5000".toList)
         (Handshake.serialize (Handshake.new (List.replicate 20 1) (List.replicate 20 2)))]
      = ([], Except.error "connection reset by peer".toList) := by
  rfl

/-- Deserialization only reads the first 68 bytes. -/
theorem deserialize_take (d : List Nat) (h : 68 ≤ d.length) :
    Handshake.deserialize d = Handshake.deserialize (d.take 68) := by
  have hlen : (d.take 68).length = 68 := by
    rw [List.length_take]
    omega
  have hhead : (d.take 68).headD 0 = d.headD 0 := by
    cases d with
    | nil => simp at h
    | cons a l => rfl
  have hseg : ∀ a b : Nat, a + b ≤ 68 →
      ((d.take 68).drop a).take b = (d.drop a).take b := by
    intro a b hab
    rw [List.drop_take, List.take_take]
    congr 1
    omega
  rw [Handshake.deserialize, Handshake.deserialize, hlen, hhead,
    hseg 1 19 (by omega), hseg 20 8 (by omega),
    hseg 28 20 (by omega), hseg 48 20 (by omega)]
  rw [if_neg (show ¬ d.length < HANDSHAKE_LENGTH by
      simp only [HANDSHAKE_LENGTH]; omega),
    if_neg (show ¬ (68 : Nat) < HANDSHAKE_LENGTH by decide)]

/-- C10: deserialization depends only on the first 68 bytes of its
input: any two inputs of length at least 68 that agree on their first
68 bytes produce identical results (over-length input is never
rejected for its length). -/
theorem C10_deserialize_prefix_only (d1 d2 : List Nat) (h1 : 68 ≤ d1.length)
    (h2 : 68 ≤ d2.length) (he : d1.take 68 = d2.take 68) :
    Handshake.deserialize d1 = Handshake.deserialize d2 := by
  rw [deserialize_take d1 h1, deserialize_take d2 h2, he]

/-- C10 witness: a well-formed 68-byte message with different trailing
junk deserializes identically. -/
theorem C10_deserialize_prefix_only_witness :
    Handshake.deserialize
      (Handshake.serialize (Handshake.new (List.replicate 20 1) (List.replicate 20 2))
        ++ [1, 2, 3])
      = Handshake.deserialize
      (Handshake.serialize (Handshake.new (List.replicate 20 1) (List.replicate 20 2))
        ++ [9]) :=
  C10_deserialize_prefix_only _ _ (by decide) (by decide) (by decide)
